import Mathlib

/-!
Shallow embedding of the `tcsv` streaming CSV transformation pipeline
(`src/tcsv.py`) and verification of its specification.

Rows are ordered sequences of field values; we model field values as strings
(the values as read from the csv module; user functions may transform them,
and nothing in the verified properties depends on richer value types).
Python exceptions that can escape user functions or the library code are
modelled by the `PyErr` type, and fallible computations return `Except`.

Python's `self.names` list is shared by aliasing: `mutate(fn, col=None)` and
`constraint(fn, col=None)` capture the very list object stored in
`self.names`, `add`/`add_column` append to that object in place, while
`rename` and `select` rebind `self.names` to a fresh object.  To keep this
observable behaviour, the state carries a small heap (`store`) of name-list
objects; `namesRef` is the reference held by `self.names`, and a column
specification captured by a closure is either a reference into the heap
(`ColsSpec.ref`, the `col=None` case) or a plain list (`ColsSpec.lit`).
-/

/-- Field values flowing through the pipeline (`csv` yields strings). -/
abbrev Val := String

/-- Python exceptions that arise in `tcsv.py`: `KeyError` (unknown column),
`IndexError` (row access out of range), `TypeError`, arbitrary exceptions
raised by user-supplied functions, and `ConstraintError` as raised by the
closure registered by `TransformCSV.constraint` (carrying column name,
offending value, the predicate's `__name__`, and `self.rownumber`). -/
inductive PyErr where
  | keyError (k : String)
  | indexError
  | typeError (msg : String)
  | userError (msg : String)
  | constraintError (column : Val) (value : Val) (fnName : String) (rownumber : Nat)
deriving DecidableEq

/-- A Python `dict` from column names to indices, as an association list in
insertion order with unique keys (matching Python dict semantics). -/
abbrev Dict := List (String × Nat)

/-- Python `d[k]` lookup (the `Dict` keeps keys unique, so first match wins). -/
def dlookup : Dict → String → Option Nat
  | [], _ => none
  | (k, v) :: rest, key => if key = k then some v else dlookup rest key

/-- Python `d[k] = v`: update the value in place if the key is present,
otherwise append the new binding at the end (insertion order). -/
def dinsert : Dict → String → Nat → Dict
  | [], k, v => [(k, v)]
  | (k', v') :: rest, k, v =>
    if k' = k then (k, v) :: rest else (k', v') :: dinsert rest k v

/-- Python `dict(zip(names, range(len(names))))`: the name-to-index mapping
regenerated from an ordered name sequence (later duplicates overwrite
earlier occurrences, so a duplicated name resolves to its last position). -/
def regen (ns : List String) : Dict :=
  (ns.zip (List.range ns.length)).foldl (fun d p => dinsert d p.1 p.2) []

/-- The column list captured by a registered closure: `ref r` is the aliased
`self.names` object (the `col=None` case, `columns = self.names`), `lit cs`
is an ordinary list of names (`col` given as a string or list). -/
inductive ColsSpec where
  | ref (r : Nat)
  | lit (cs : List String)

/-- One entry of `self.mutation_fns`, tagged by the registering method:
`addConst v` from `add` (appends the constant `v`), `addCol f cs` from
`add_column` (gathers the values of `cs`, applies `f`, appends the result),
and `mutateE f cols` from `mutate` (replaces each target column's value by
`f` of it, in target order). -/
inductive MutEntry where
  | addConst (v : Val)
  | addCol (f : List Val → Except PyErr Val) (cs : List String)
  | mutateE (f : Val → Except PyErr Val) (cols : ColsSpec)

/-- One entry of `self.constraint_fns`: the predicate, its display name
(`fn.__name__`), and the target columns captured at registration. -/
structure ConEntry where
  f : Val → Except PyErr Bool
  fname : String
  cols : ColsSpec

/-- The state of a `TransformCSV` object.  `store` is the heap of name-list
objects (see the module docstring), `namesRef` the object currently bound to
`self.names`, `idx` is `self.idx`, `muts` is `self.mutation_fns`, `cons` is
`self.constraint_fns`, `sel` is `none` for the identity `select_fn` and
`some r` for the projection closure installed by `select` (aliasing the
name-list object `r`), `source` the rows not yet consumed from the reader,
and `rownumber` is `self.rownumber`. -/
structure TCSV where
  store : List (List String)
  namesRef : Nat
  idx : Dict
  muts : List MutEntry
  cons : List ConEntry
  sel : Option Nat
  source : List (List Val)
  rownumber : Nat

instance : Inhabited TCSV :=
  ⟨{ store := [], namesRef := 0, idx := [], muts := [], cons := [],
     sel := none, source := [], rownumber := 0 }⟩

/-- The current content of `self.names`. -/
def TCSV.names (s : TCSV) : List String := s.store.getD s.namesRef []

/-- The current content of a captured column specification: a `ref` reads the
aliased name-list object from the heap, a `lit` is its own content. -/
def resolveCols (s : TCSV) : ColsSpec → List String
  | .ref r => s.store.getD r []
  | .lit cs => cs

/-- Python `row[i]` for a non-negative index: `IndexError` when out of range. -/
def pyGet (row : List Val) (i : Nat) : Except PyErr Val :=
  match row.get? i with
  | some v => .ok v
  | none => .error .indexError

/-- Python `row[i] = v` for a non-negative index: `IndexError` out of range. -/
def pySet (row : List Val) (i : Nat) (v : Val) : Except PyErr (List Val) :=
  if i < row.length then .ok (row.set i v) else .error .indexError

/-- Python `self.idx[c]`: `KeyError` when the column is unknown. -/
def dGet (d : Dict) (k : String) : Except PyErr Nat :=
  match dlookup d k with
  | some i => .ok i
  | none => .error (.keyError k)

/-- The registration-time check shared by `add_column`, `mutate`,
`constraint` and `select`: walk the requested columns in order and raise
`KeyError` at the first one missing from `self.idx`. -/
def validateCols (idx : Dict) (cs : List String) : Except PyErr Unit :=
  match cs.find? (fun c => (dlookup idx c).isNone) with
  | some c => .error (.keyError c)
  | none => .ok ()

/-- Python `name_map.get(name)` for the `rename` argument. -/
def alookup : List (String × String) → String → Option String
  | [], _ => none
  | (k, v) :: rest, key => if key = k then some v else alookup rest key

/-- `TransformCSV.rename`: build a fresh name list applying the mapping to
every current name (unmapped names unchanged), rebind `self.names` to it and
regenerate `self.idx` from it. -/
def TCSV.rename (s : TCSV) (m : List (String × String)) : TCSV :=
  let newNames := (TCSV.names s).map (fun n =>
    match alookup m n with
    | some nn => nn
    | none => n)
  { s with store := s.store ++ [newNames], namesRef := s.store.length,
           idx := regen newNames }

/-- Common schema effect of `add` and `add_column`: append the closure to
`self.mutation_fns`, append the new name to the `self.names` object in place
(so every alias of that object sees it), and set
`self.idx[name] = len(self.names) - 1`. -/
def pushNew (s : TCSV) (n : String) (entry : MutEntry) : TCSV :=
  let newNames := TCSV.names s ++ [n]
  { s with store := s.store.set s.namesRef newNames,
           idx := dinsert s.idx n (newNames.length - 1),
           muts := s.muts ++ [entry] }

/-- `TransformCSV.add`: register a closure appending the constant `v` to
every row, and register the new column name. -/
def TCSV.add (s : TCSV) (n : String) (v : Val) : TCSV :=
  pushNew s n (.addConst v)

/-- `TransformCSV.add_column` with `col` already normalised to a list of
names (the source wraps a single string into a one-element list; the
`TypeError` branch for other argument types is outside the verified
claims).  Registration validates every requested column against the current
`self.idx` and fails with `KeyError` before anything is registered. -/
def TCSV.add_column (s : TCSV) (n : String) (f : List Val → Except PyErr Val)
    (cs : List String) : Except PyErr TCSV :=
  match validateCols s.idx cs with
  | .error e => .error e
  | .ok _ => .ok (pushNew s n (.addCol f cs))

/-- The shape of the `col` parameter of `mutate` and `constraint`:
`None`, a single column name, or a list of names. -/
inductive ColArg where
  | noneArg
  | str (c : String)
  | seq (cs : List String)

/-- The `columns` local computed from the `col` parameter: for `col=None`
the source executes `columns = self.names`, which captures the `self.names`
object itself by reference; a string becomes a one-element list and a list
is taken as given. -/
def colArgSpec (s : TCSV) (col : ColArg) : ColsSpec :=
  match col with
  | .noneArg => .ref s.namesRef
  | .str c => .lit [c]
  | .seq cs => .lit cs

/-- `TransformCSV.mutate`: validate that every target column currently
resolves, then append a closure replacing each target column's value by `f`
of it (the closure reads `self.idx` and, for `col=None`, the live
`self.names` object at row time). -/
def TCSV.mutate (s : TCSV) (f : Val → Except PyErr Val) (col : ColArg) :
    Except PyErr TCSV :=
  let cspec := colArgSpec s col
  match validateCols s.idx (resolveCols s cspec) with
  | .error e => .error e
  | .ok _ => .ok { s with muts := s.muts ++ [.mutateE f cspec] }

/-- `TransformCSV.constraint`: validate the targets, then append a closure
checking `f` on each target column's value in order. -/
def TCSV.constraint (s : TCSV) (f : Val → Except PyErr Bool) (fname : String)
    (col : ColArg) : Except PyErr TCSV :=
  let cspec := colArgSpec s col
  match validateCols s.idx (resolveCols s cspec) with
  | .error e => .error e
  | .ok _ => .ok { s with cons := s.cons ++ [{ f := f, fname := fname, cols := cspec }] }

/-- `TransformCSV.select`: validate the requested columns, rebind
`self.names` to the given list (verbatim — the projection closure aliases
the same object), install the projection, and leave `self.idx` untouched
(the projection closure resolves the selected names through the pre-select
mapping at row time). -/
def TCSV.select (s : TCSV) (cs : List String) : Except PyErr TCSV :=
  match validateCols s.idx cs with
  | .error e => .error e
  | .ok _ => .ok { s with store := s.store ++ [cs], namesRef := s.store.length,
                          sel := some s.store.length }

/-- Construction (`TransformCSV.__init__` plus `_create_reader`): skip
`skiprows` rows (each advancing `self.rownumber`, which starts at 1), then
consume the header row — without advancing the counter — to initialise the
name list and the index mapping.  `none` when the file is exhausted before
the header is read (`StopIteration` escapes the constructor). -/
def mkTCSV (file : List (List Val)) (skiprows : Nat) : Option TCSV :=
  match file.drop skiprows with
  | [] => none
  | names :: rest =>
    some { store := [names], namesRef := 0, idx := regen names,
           muts := [], cons := [], sel := none,
           source := rest, rownumber := 1 + skiprows }

/-- Row-time behaviour of the closure registered by `mutate`: for each
target column in order, `row[self.idx[c]] = fn(row[self.idx[c]])`, mutating
the row in place (modelled by threading the row value). -/
def runMutate (s : TCSV) (f : Val → Except PyErr Val) :
    List String → List Val → Except PyErr (List Val)
  | [], row => .ok row
  | c :: cs, row =>
    match dGet s.idx c with
    | .error e => .error e
    | .ok i =>
      match pyGet row i with
      | .error e => .error e
      | .ok v =>
        match f v with
        | .error e => .error e
        | .ok w =>
          match pySet row i w with
          | .error e => .error e
          | .ok row2 => runMutate s f cs row2

/-- Row-time gathering of column values, left to right, first error wins:
used by the `add_column` closure (`vals = [row[self.idx[c]] for c in
columns]`) and by the `select` closure (`[row[self.idx[col]] for col in
columns]`). -/
def gatherVals (s : TCSV) (row : List Val) : List String → Except PyErr (List Val)
  | [] => .ok []
  | c :: cs =>
    match dGet s.idx c with
    | .error e => .error e
    | .ok i =>
      match pyGet row i with
      | .error e => .error e
      | .ok v =>
        match gatherVals s row cs with
        | .error e => .error e
        | .ok vs => .ok (v :: vs)

/-- Row-time behaviour of one `self.mutation_fns` entry. -/
def runMutEntry (s : TCSV) (e : MutEntry) (row : List Val) : Except PyErr (List Val) :=
  match e with
  | .addConst v => .ok (row ++ [v])
  | .addCol f cs =>
    match gatherVals s row cs with
    | .error e2 => .error e2
    | .ok vs =>
      match f vs with
      | .error e2 => .error e2
      | .ok nv => .ok (row ++ [nv])
  | .mutateE f cspec => runMutate s f (resolveCols s cspec) row

/-- The transform loop of `__next__`.  Every closure held in
`self.mutation_fns` mutates its argument in place and returns that same
object, so although the loop body is `mutated = fn(row)` (always passing the
raw `row` object), each iteration observes all previous mutations; the
in-place execution is therefore modelled by threading the row value through
the entries in registration order. -/
def runMuts (s : TCSV) : List MutEntry → List Val → Except PyErr (List Val)
  | [], row => .ok row
  | e :: rest, row =>
    match runMutEntry s e row with
    | .error e2 => .error e2
    | .ok row2 => runMuts s rest row2

/-- The content of the raw row object after the transform loop of
`__next__`.  The loop executes `mutated = fn(row)` against the raw `row`
object fetched from the reader — not against the shallow copy
`mutated = row[:]` made just before, which the first iteration discards —
and every registered mutation mutates its argument in place and returns it,
so the raw object itself accumulates every mutation of the chain. -/
def rawRowAfterChain (s : TCSV) (row : List Val) : Except PyErr (List Val) :=
  runMuts s s.muts row

/-- Row-time behaviour of the closure registered by `constraint`: check the
target columns in order and raise `ConstraintError` at the first falsy
verdict, reading `self.rownumber` at that moment. -/
def runConstraint (s : TCSV) (f : Val → Except PyErr Bool) (fname : String) :
    List String → List Val → Except PyErr Unit
  | [], _ => .ok ()
  | c :: cs, row =>
    match dGet s.idx c with
    | .error e => .error e
    | .ok i =>
      match pyGet row i with
      | .error e => .error e
      | .ok v =>
        match f v with
        | .error e => .error e
        | .ok b =>
          if b then runConstraint s f fname cs row
          else .error (.constraintError c v fname s.rownumber)

/-- Row-time behaviour of one `self.constraint_fns` entry. -/
def runConEntry (s : TCSV) (e : ConEntry) (row : List Val) : Except PyErr Unit :=
  runConstraint s e.f e.fname (resolveCols s e.cols) row

/-- The constraint loop of `__next__`: entries in registration order, first
raised exception aborts the rest. -/
def runCons (s : TCSV) (row : List Val) : List ConEntry → Except PyErr Unit
  | [] => .ok ()
  | e :: rest =>
    match runConEntry s e row with
    | .error e2 => .error e2
    | .ok _ => runCons s row rest

/-- `self.select_fn`: the identity before any `select`; afterwards the
projection closure, whose column list aliases the name-list object installed
by the `select` and which resolves each name through `self.idx` at row
time. -/
def runSelect (s : TCSV) (row : List Val) : Except PyErr (List Val) :=
  match s.sel with
  | none => .ok row
  | some r => gatherVals s row (s.store.getD r [])

/-- The body of the `try` block of `__next__`: transform chain, then
constraint chain over a copy of the mutated row (constraint closures do not
mutate rows, so the copy is value-transparent), then `select_fn`. -/
def stepsRun (s : TCSV) (row : List Val) : Except PyErr (List Val) :=
  match runMuts s s.muts row with
  | .error e => .error e
  | .ok mutated =>
    match runCons s mutated s.cons with
    | .error e => .error e
    | .ok _ => runSelect s mutated

/-- The state update performed by `__next__` before the `try` block: the
reader cursor has moved past the fetched row and `self.rownumber` is
incremented. -/
def advanceS (s : TCSV) (rest : List (List Val)) : TCSV :=
  { s with source := rest, rownumber := s.rownumber + 1 }

/-- The outcome of one `__next__` call: `eos` is an unwrapped
`StopIteration` from the exhausted reader, `ok` a returned row, and
`err rown e` a raised `TransformError(rown, e)` wrapping the original
exception `e`. -/
inductive PullResult where
  | eos
  | ok (row : List Val)
  | err (rown : Nat) (e : PyErr)
deriving DecidableEq

/-- `TransformCSV.__next__`: an empty source propagates `StopIteration`
unwrapped and leaves the state unchanged; otherwise the row is consumed, the
counter incremented, and any exception from the transform, constraint or
select steps is re-raised as `TransformError(self.rownumber, e)`. -/
def pull (s : TCSV) : TCSV × PullResult :=
  match s.source with
  | [] => (s, .eos)
  | row :: rest =>
    let s2 := advanceS s rest
    match stepsRun s2 row with
    | .ok out => (s2, .ok out)
    | .error e => (s2, .err s2.rownumber e)

/-- The state after `n` calls to `__next__` (results discarded). -/
def pullN (s : TCSV) : Nat → TCSV
  | 0 => s
  | n + 1 => pullN (pull s).1 n

/-- Fuelled drain loop of `TransformCSV.write`: repeatedly pull, collecting
returned rows, until `StopIteration` stops the loop or a `TransformError`
aborts it (the error propagates out of `write`). -/
def drainF : Nat → TCSV → List (List Val) × Option (Nat × PyErr)
  | 0, _ => ([], none)
  | fuel + 1, s =>
    match pull s with
    | (_, .eos) => ([], none)
    | (t, .ok r) =>
      let p := drainF fuel t
      (r :: p.1, p.2)
    | (_, .err rn e) => ([], some (rn, e))

/-- The drain performed by `TransformCSV.write`: each non-final pull
consumes exactly one source row, so `s.source.length` is enough fuel for the
unbounded Python loop. -/
def drain (s : TCSV) : List (List Val) × Option (Nat × PyErr) :=
  drainF s.source.length s

/-- A registration operation invoked between construction and consumption. -/
inductive Op where
  | renameO (m : List (String × String))
  | addO (n : String) (v : Val)
  | addColO (n : String) (f : List Val → Except PyErr Val) (cs : List String)
  | mutateO (f : Val → Except PyErr Val) (col : ColArg)
  | constraintO (f : Val → Except PyErr Bool) (fname : String) (col : ColArg)
  | selectO (cs : List String)

/-- Apply one registration operation. -/
def applyOp (s : TCSV) : Op → Except PyErr TCSV
  | .renameO m => .ok (TCSV.rename s m)
  | .addO n v => .ok (TCSV.add s n v)
  | .addColO n f cs => TCSV.add_column s n f cs
  | .mutateO f col => TCSV.mutate s f col
  | .constraintO f fname col => TCSV.constraint s f fname col
  | .selectO cs => TCSV.select s cs

/-- Apply registration operations in order; a registration-time error stops
the sequence. -/
def applyOps : TCSV → List Op → Except PyErr TCSV
  | s, [] => .ok s
  | s, op :: rest =>
    match applyOp s op with
    | .ok t => applyOps t rest
    | .error e => .error e

/-- Number of row-lengthening entries (`add`/`add_column` closures) among
registered mutations. -/
def addDelta : MutEntry → Nat
  | .addConst _ => 1
  | .addCol _ _ => 1
  | .mutateE _ _ => 0

/-- Total number of row-lengthening mutation entries. -/
def addCount : List MutEntry → Nat
  | [] => 0
  | e :: rest => addDelta e + addCount rest

/-- Schema discipline on a registration sequence: after a `select`, an
`add`/`add_column` may only be registered while the name-list object
installed by that `select` is still the current `self.names` object, i.e.
before any subsequent `rename` (a `rename` rebinds `self.names` to a fresh
object, so a later in-place append no longer reaches the projection
closure's aliased list).  The first flag records whether a `select` has
happened, the second whether a `rename` has rebound `self.names` since the
last `select`. -/
def goodAux : Bool → Bool → List Op → Bool
  | _, _, [] => true
  | selF, stale, op :: rest =>
    match op with
    | .selectO _ => goodAux true false rest
    | .renameO _ => goodAux selF selF rest
    | .addO _ _ => !stale && goodAux selF stale rest
    | .addColO _ _ _ => !stale && goodAux selF stale rest
    | .mutateO _ _ => goodAux selF stale rest
    | .constraintO _ _ _ => goodAux selF stale rest

/-- Schema discipline for a sequence starting at construction. -/
def goodSeq (ops : List Op) : Bool := goodAux false false ops

/-- Extract the success value of an `Except`. -/
def exOk {α : Type} (x : Except PyErr α) : Option α :=
  match x with
  | .ok a => some a
  | .error _ => none

/-! Width invariant: the schema bookkeeping that makes emitted-row widths
predictable.  `SchemaInv H s` says: the `self.names` reference is valid;
before any `select` the name count is the header width `H` plus the number
of row-lengthening mutation entries; after a `select` the projection
closure's aliased name-list object has the same length as `self.names`. -/

def SchemaInv (H : Nat) (s : TCSV) : Prop :=
  s.namesRef < s.store.length ∧
  (s.sel = none → (TCSV.names s).length = H + addCount s.muts) ∧
  (∀ r, s.sel = some r → r < s.store.length ∧
    (s.store.getD r []).length = (TCSV.names s).length)

/-- Correspondence between the `goodAux` flags and the state: no `select`
yet means the identity projection; after a `select` that no `rename` has
followed, the projection closure's list object is the current `self.names`
object. -/
def FlagsOk (selF stale : Bool) (s : TCSV) : Prop :=
  (selF = false → s.sel = none) ∧
  (selF = true → ∃ r, s.sel = some r) ∧
  (selF = true → stale = false → s.sel = some s.namesRef)

/-! Concrete pipelines used to instantiate and refute the verified
properties. -/

/-- The predicate of a concrete constraint: true unless the value is `"0"`. -/
def nonzero : Val → Except PyErr Bool := fun v => .ok (v != "0")

/-- Pipeline over header `[a]` with data rows `[0]` and `[1]` and the
constraint `nonzero` registered on column `a`: the first pull fails the
constraint, the second succeeds. -/
def conPipe : TCSV :=
  match mkTCSV [["a"], ["0"], ["1"]] 0 with
  | some s =>
    match TCSV.constraint s nonzero "nonzero" (.str "a") with
    | .ok t => t
    | .error _ => s
  | none => default

/-- Pipeline over header `[x, y]` with one data row, no registrations. -/
def c8pipe : TCSV := (mkTCSV [["x", "y"], ["1", "2"]] 0).getD default

/-- Pipeline over header `[c1, c2]` with data row `[1, 2]`. -/
def c9init : TCSV := (mkTCSV [["c1", "c2"], ["1", "2"]] 0).getD default

/-- The previous pipeline after `select([c2, c1])`. -/
def c9sel : TCSV := (exOk (TCSV.select c9init ["c2", "c1"])).getD default

/-- Pipeline over header `[a]`, data row `[1]`, registering
`mutate(fn, col=None)` and then `add(k, x)`: the mutation's aliased target
list grows to `[a, k]`, so the mutation closure indexes past the end of the
raw one-field row. -/
def mutNonePipe : TCSV :=
  match mkTCSV [["a"], ["1"]] 0 with
  | some s =>
    match TCSV.mutate s (fun v => .ok (v ++ "!")) .noneArg with
    | .ok t => TCSV.add t "k" "x"
    | .error _ => s
  | none => default

/-- The same pipeline but with the mutation registered on the explicit
column list `[a]` (the snapshot the specification describes). -/
def mutSnapPipe : TCSV :=
  match mkTCSV [["a"], ["1"]] 0 with
  | some s =>
    match TCSV.mutate s (fun v => .ok (v ++ "!")) (.seq ["a"]) with
    | .ok t => TCSV.add t "k" "x"
    | .error _ => s
  | none => default

/-- Pipeline over header `[a]`, data row `[1]`, registering `select([a])`,
then `rename({})` (which rebinds `self.names` to a fresh object), then
`add(k, x)` (which appends to the fresh object but not to the projection
closure's aliased list). -/
def widthPipe : TCSV :=
  match mkTCSV [["a"], ["1"]] 0 with
  | some s =>
    match applyOps s [Op.selectO ["a"], Op.renameO [], Op.addO "k" "x"] with
    | .ok t => t
    | .error _ => s
  | none => default

/-- Pipeline over header `[c1, c2]`, data row `[1, 2]`, after the single
registration `select([c2, c1])`. -/
def c6wPipe : TCSV :=
  match mkTCSV [["c1", "c2"], ["1", "2"]] 0 with
  | some s =>
    match applyOps s [Op.selectO ["c2", "c1"]] with
    | .ok t => t
    | .error _ => s
  | none => default

/-! List helper lemmas for `getD` access into the heap and rows. -/

theorem list_getD_append_lt {α : Type} (l : List α) (x : α) (d : α) :
    ∀ r, r < l.length → (l ++ [x]).getD r d = l.getD r d := by
  induction l with
  | nil => intro r h; exact absurd h (by simp)
  | cons a l ih =>
    intro r h
    cases r with
    | zero => rfl
    | succ r => exact ih r (Nat.lt_of_succ_lt_succ h)

theorem list_getD_append_len {α : Type} (l : List α) (x : α) (d : α) :
    (l ++ [x]).getD l.length d = x := by
  induction l with
  | nil => rfl
  | cons a l ih => exact ih

theorem list_getD_set_self {α : Type} (l : List α) (v d : α) :
    ∀ i, i < l.length → (l.set i v).getD i d = v := by
  induction l with
  | nil => intro i h; exact absurd h (by simp)
  | cons a l ih =>
    intro i h
    cases i with
    | zero => rfl
    | succ i => exact ih i (Nat.lt_of_succ_lt_succ h)

theorem list_getD_set_ne {α : Type} (l : List α) (v d : α) :
    ∀ i j, i ≠ j → (l.set i v).getD j d = l.getD j d := by
  induction l with
  | nil => intro i j _; cases i <;> rfl
  | cons a l ih =>
    intro i j hne
    cases i with
    | zero =>
      cases j with
      | zero => exact absurd rfl hne
      | succ j => rfl
    | succ i =>
      cases j with
      | zero => rfl
      | succ j => exact ih i j (fun h => hne (by rw [h]))

theorem list_tail_drop {α : Type} (l : List α) (n : Nat) :
    l.tail.drop n = l.drop (n + 1) := by
  cases l with
  | nil => simp
  | cons a l => rfl

/-! Dict lemmas: lookup, insertion and regeneration from a name sequence. -/

theorem dlookup_dinsert (d : Dict) (k : String) (v : Nat) (key : String) :
    dlookup (dinsert d k v) key = if key = k then some v else dlookup d key := by
  induction d with
  | nil => simp [dinsert, dlookup]
  | cons p rest ih =>
    obtain ⟨k', v'⟩ := p
    by_cases hk : k' = k
    · subst hk
      simp only [dinsert, if_pos rfl, dlookup]
      by_cases hkey : key = k'
      · simp [hkey]
      · simp [hkey]
    · simp only [dinsert, if_neg hk, dlookup]
      by_cases hkey : key = k'
      · subst hkey
        have : ¬ key = k := fun h => hk (h ▸ rfl)
        simp [this]
      · simp only [if_neg hkey, ih]

theorem dinsert_length (d : Dict) (k : String) (v : Nat) :
    (dinsert d k v).length =
      if dlookup d k = none then d.length + 1 else d.length := by
  induction d with
  | nil => simp [dinsert, dlookup]
  | cons p rest ih =>
    obtain ⟨k', v'⟩ := p
    by_cases hk : k' = k
    · subst hk
      simp [dinsert, dlookup]
    · have hk2 : ¬ k = k' := fun h => hk (h ▸ rfl)
      simp only [dinsert, if_neg hk, dlookup, if_neg hk2, List.length_cons, ih]
      by_cases hnone : dlookup rest k = none
      · simp [hnone]
      · simp [hnone]

theorem regen_append (ns : List String) (n : String) :
    regen (ns ++ [n]) = dinsert (regen ns) n ns.length := by
  have hlen : ns.length = (List.range ns.length).length := (List.length_range _).symm
  have hr : List.range (ns ++ [n]).length = List.range ns.length ++ [ns.length] := by
    simp [List.range_succ]
  simp only [regen, hr, List.zip_append hlen, List.foldl_append]
  rfl

theorem dlookup_regen_append (ns : List String) (n : String) (k : String) :
    dlookup (regen (ns ++ [n])) k =
      if k = n then some ns.length else dlookup (regen ns) k := by
  rw [regen_append, dlookup_dinsert]

theorem dlookup_regen_eq_none (k : String) :
    ∀ ns : List String, k ∉ ns → dlookup (regen ns) k = none := by
  intro ns
  induction ns using List.reverseRecOn with
  | nil => intro _; rfl
  | append_singleton ns n ih =>
    intro h
    have hk : ¬ k = n := by
      intro hkn; exact h (by simp [hkn])
    have hns : k ∉ ns := fun hm => h (by simp [hm])
    rw [dlookup_regen_append, if_neg hk, ih hns]

theorem regen_length_le (ns : List String) : (regen ns).length ≤ ns.length := by
  induction ns using List.reverseRecOn with
  | nil => simp [regen]
  | append_singleton ns n ih =>
    rw [regen_append, dinsert_length]
    by_cases h : dlookup (regen ns) n = none
    · simp only [if_pos h, List.length_append, List.length_cons, List.length_nil]
      omega
    · simp only [if_neg h, List.length_append, List.length_cons, List.length_nil]
      omega

theorem regen_length_nodup : ∀ ns : List String, ns.Nodup → (regen ns).length = ns.length := by
  intro ns
  induction ns using List.reverseRecOn with
  | nil => intro _; rfl
  | append_singleton ns n ih =>
    intro h
    have hns : ns.Nodup := (List.nodup_append.mp h).1
    have hnotin : n ∉ ns := by
      have hd := (List.nodup_append.mp h).2.2
      intro hmem
      exact hd hmem (by simp)
    rw [regen_append, dinsert_length, if_pos (dlookup_regen_eq_none n ns hnotin), ih hns]
    simp

/-! Length behaviour of the row-time closures. -/

theorem pySet_length {row : List Val} {i : Nat} {v : Val} {row2 : List Val}
    (h : pySet row i v = .ok row2) : row2.length = row.length := by
  unfold pySet at h
  by_cases hi : i < row.length
  · rw [if_pos hi] at h
    cases h
    exact List.length_set ..
  · rw [if_neg hi] at h
    cases h

theorem runMutate_length {s : TCSV} {f : Val → Except PyErr Val} :
    ∀ {cs : List String} {row row2 : List Val},
      runMutate s f cs row = .ok row2 → row2.length = row.length := by
  intro cs
  induction cs with
  | nil =>
    intro row row2 h
    simp only [runMutate] at h
    cases h
    rfl
  | cons c cs ih =>
    intro row row2 h
    simp only [runMutate] at h
    split at h
    · cases h
    · split at h
      · cases h
      · split at h
        · cases h
        · split at h
          · cases h
          · rename_i row3 hset
            exact (ih h).trans (pySet_length hset)

theorem gatherVals_length {s : TCSV} {row : List Val} :
    ∀ {cs : List String} {out : List Val},
      gatherVals s row cs = .ok out → out.length = cs.length := by
  intro cs
  induction cs with
  | nil =>
    intro out h
    simp only [gatherVals] at h
    cases h
    rfl
  | cons c cs ih =>
    intro out h
    simp only [gatherVals] at h
    split at h
    · cases h
    · split at h
      · cases h
      · split at h
        · cases h
        · rename_i vs hvs
          cases h
          simp [ih hvs]

theorem runMutEntry_length {s : TCSV} {e : MutEntry} {row out : List Val}
    (h : runMutEntry s e row = .ok out) : out.length = row.length + addDelta e := by
  cases e with
  | addConst v =>
    simp only [runMutEntry] at h
    cases h
    simp [addDelta]
  | addCol f cs =>
    simp only [runMutEntry] at h
    split at h
    · cases h
    · split at h
      · cases h
      · cases h
        simp [addDelta]
  | mutateE f cspec =>
    simp only [runMutEntry] at h
    simpa [addDelta] using runMutate_length h

theorem addCount_append (l : List MutEntry) (e : MutEntry) :
    addCount (l ++ [e]) = addCount l + addDelta e := by
  induction l with
  | nil => simp [addCount]
  | cons a l ih => simp [addCount, ih]; omega

theorem runMuts_length {s : TCSV} :
    ∀ {ms : List MutEntry} {row out : List Val},
      runMuts s ms row = .ok out → out.length = row.length + addCount ms := by
  intro ms
  induction ms with
  | nil =>
    intro row out h
    simp only [runMuts] at h
    cases h
    simp [addCount]
  | cons e ms ih =>
    intro row out h
    simp only [runMuts] at h
    split at h
    · cases h
    · rename_i row2 h2
      have := ih h
      have := runMutEntry_length h2
      simp [addCount]
      omega

/-! Structural behaviour of `pull` and `pullN`: a pull never changes the
schema (store, names reference, index mapping, registered chains), consumes
exactly one source row when one is available, and increments the counter
exactly when a row was consumed. -/

theorem pull_schema (s : TCSV) :
    (pull s).1.store = s.store ∧ (pull s).1.namesRef = s.namesRef ∧
    (pull s).1.idx = s.idx ∧ (pull s).1.muts = s.muts ∧
    (pull s).1.cons = s.cons ∧ (pull s).1.sel = s.sel := by
  unfold pull
  cases s.source with
  | nil => exact ⟨rfl, rfl, rfl, rfl, rfl, rfl⟩
  | cons row rest =>
    simp only
    split <;> exact ⟨rfl, rfl, rfl, rfl, rfl, rfl⟩

theorem pull_source (s : TCSV) : (pull s).1.source = s.source.tail := by
  unfold pull
  cases hs : s.source with
  | nil => exact hs
  | cons row rest =>
    simp only
    split <;> rfl

theorem pull_rownumber (s : TCSV) :
    (pull s).1.rownumber = s.rownumber + (if s.source = [] then 0 else 1) := by
  unfold pull
  cases s.source with
  | nil => simp
  | cons row rest =>
    simp only
    split <;> simp [advanceS]

theorem pull_empty (s : TCSV) (h : s.source = []) : pull s = (s, .eos) := by
  unfold pull
  rw [h]

theorem pullN_source (s : TCSV) : ∀ n, (pullN s n).source = s.source.drop n := by
  intro n
  induction n generalizing s with
  | zero => rfl
  | succ n ih =>
    show (pullN (pull s).1 n).source = _
    rw [ih, pull_source, list_tail_drop]

theorem pullN_schema (s : TCSV) : ∀ n,
    (pullN s n).store = s.store ∧ (pullN s n).namesRef = s.namesRef ∧
    (pullN s n).idx = s.idx ∧ (pullN s n).muts = s.muts ∧
    (pullN s n).cons = s.cons ∧ (pullN s n).sel = s.sel := by
  intro n
  induction n generalizing s with
  | zero => exact ⟨rfl, rfl, rfl, rfl, rfl, rfl⟩
  | succ n ih =>
    obtain ⟨a1, a2, a3, a4, a5, a6⟩ := pull_schema s
    obtain ⟨b1, b2, b3, b4, b5, b6⟩ := ih (pull s).1
    exact ⟨b1.trans a1, b2.trans a2, b3.trans a3, b4.trans a4, b5.trans a5, b6.trans a6⟩

theorem pullN_rownumber (s : TCSV) : ∀ n,
    (pullN s n).rownumber = s.rownumber + min n s.source.length := by
  intro n
  induction n generalizing s with
  | zero => simp [pullN]
  | succ n ih =>
    show (pullN (pull s).1 n).rownumber = _
    rw [ih]
    cases hs : s.source with
    | nil =>
      rw [pull_empty s hs]
      simp [hs]
    | cons row rest =>
      have h1 := pull_rownumber s
      have h2 := pull_source s
      rw [hs] at h1 h2
      simp only [if_neg (by simp : ¬ (row :: rest = []))] at h1
      rw [h1, h2]
      simp only [List.tail_cons, List.length_cons]
      omega

theorem pullN_succ_back (s : TCSV) : ∀ n, pullN s (n + 1) = (pull (pullN s n)).1 := by
  intro n
  induction n generalizing s with
  | zero => rfl
  | succ n ih =>
    show pullN (pull s).1 (n + 1) = _
    rw [ih (pull s).1]
    rfl

/-! Inversion lemmas for the fallible registration operations. -/

theorem add_column_ok {s : TCSV} {n : String} {f : List Val → Except PyErr Val}
    {cs : List String} {t : TCSV} (h : TCSV.add_column s n f cs = .ok t) :
    t = pushNew s n (.addCol f cs) := by
  unfold TCSV.add_column at h
  split at h
  · cases h
  · cases h; rfl

theorem mutate_ok {s : TCSV} {f : Val → Except PyErr Val} {col : ColArg} {t : TCSV}
    (h : TCSV.mutate s f col = .ok t) :
    t = { s with muts := s.muts ++ [.mutateE f (colArgSpec s col)] } := by
  simp only [TCSV.mutate] at h
  split at h
  · cases h
  · cases h; rfl

theorem constraint_ok {s : TCSV} {f : Val → Except PyErr Bool} {fname : String}
    {col : ColArg} {t : TCSV} (h : TCSV.constraint s f fname col = .ok t) :
    t = { s with cons := s.cons ++ [{ f := f, fname := fname, cols := colArgSpec s col }] } := by
  simp only [TCSV.constraint] at h
  split at h
  · cases h
  · cases h; rfl

theorem select_ok {s : TCSV} {cs : List String} {t : TCSV}
    (h : TCSV.select s cs = .ok t) :
    t = { s with store := s.store ++ [cs], namesRef := s.store.length,
                 sel := some s.store.length } := by
  unfold TCSV.select at h
  split at h
  · cases h
  · cases h; rfl

/-! Behaviour of the registration operations on the name list. -/

theorem names_rename (s : TCSV) (m : List (String × String)) :
    TCSV.names (TCSV.rename s m) =
      (TCSV.names s).map (fun n =>
        match alookup m n with
        | some nn => nn
        | none => n) := by
  unfold TCSV.rename TCSV.names
  simp only
  exact list_getD_append_len ..

theorem idx_rename (s : TCSV) (m : List (String × String)) :
    (TCSV.rename s m).idx = regen (TCSV.names (TCSV.rename s m)) := by
  rw [names_rename]
  rfl

theorem names_pushNew (s : TCSV) (n : String) (e : MutEntry)
    (h : s.namesRef < s.store.length) :
    TCSV.names (pushNew s n e) = TCSV.names s ++ [n] := by
  unfold pushNew TCSV.names
  simp only
  exact list_getD_set_self _ _ _ _ h

theorem idx_pushNew (s : TCSV) (n : String) (e : MutEntry) :
    (pushNew s n e).idx = dinsert s.idx n (TCSV.names s).length := by
  unfold pushNew
  simp

theorem rename_schemaInv {H : Nat} {s : TCSV} (hInv : SchemaInv H s)
    (m : List (String × String)) : SchemaInv H (TCSV.rename s m) := by
  obtain ⟨h1, h2, h3⟩ := hInv
  have hnames : (TCSV.names (TCSV.rename s m)).length = (TCSV.names s).length := by
    rw [names_rename]; exact List.length_map ..
  refine ⟨?_, ?_, ?_⟩
  · show s.store.length < (s.store ++ _).length
    simp
  · intro hsel
    rw [hnames]
    exact h2 hsel
  · intro r hsel
    obtain ⟨hr, hlen⟩ := h3 r hsel
    constructor
    · show r < (s.store ++ _).length
      simp only [List.length_append]
      omega
    · show ((s.store ++ _).getD r []).length = _
      rw [list_getD_append_lt _ _ _ r hr, hnames]
      exact hlen

theorem rename_flags {selF stale : Bool} {s : TCSV} (hflag : FlagsOk selF stale s)
    (m : List (String × String)) : FlagsOk selF selF (TCSV.rename s m) := by
  obtain ⟨f1, f2, f3⟩ := hflag
  refine ⟨?_, ?_, ?_⟩
  · intro h
    show s.sel = none
    exact f1 h
  · intro h
    obtain ⟨r, hr⟩ := f2 h
    exact ⟨r, hr⟩
  · intro h1 h2
    rw [h1] at h2
    cases h2

theorem pushNew_schemaInv {H : Nat} {s : TCSV} (hInv : SchemaInv H s)
    (hsel : s.sel = none ∨ s.sel = some s.namesRef)
    (n : String) (e : MutEntry) (hδ : addDelta e = 1) :
    SchemaInv H (pushNew s n e) := by
  obtain ⟨h1, h2, h3⟩ := hInv
  have hnames : TCSV.names (pushNew s n e) = TCSV.names s ++ [n] :=
    names_pushNew s n e h1
  refine ⟨?_, ?_, ?_⟩
  · show s.namesRef < (s.store.set _ _).length
    simpa using h1
  · intro hselnone
    rw [hnames]
    have : s.sel = none := hselnone
    show (TCSV.names s ++ [n]).length = H + addCount (s.muts ++ [e])
    rw [addCount_append, hδ, List.length_append]
    have := h2 this
    simp only [List.length_cons, List.length_nil]
    omega
  · intro r hselr
    have hsr : s.sel = some r := hselr
    rcases hsel with hnone | hself
    · rw [hnone] at hsr; cases hsr
    · rw [hself] at hsr
      cases hsr
      constructor
      · show s.namesRef < (s.store.set _ _).length
        simpa using h1
      · show ((s.store.set s.namesRef _).getD s.namesRef []).length = _
        rw [list_getD_set_self _ _ _ _ h1, hnames]

theorem pushNew_flags {selF stale : Bool} {s : TCSV} (hflag : FlagsOk selF stale s)
    (n : String) (e : MutEntry) : FlagsOk selF stale (pushNew s n e) := by
  obtain ⟨f1, f2, f3⟩ := hflag
  exact ⟨f1, f2, f3⟩

theorem mutOnly_schemaInv {H : Nat} {s : TCSV} (hInv : SchemaInv H s)
    (f : Val → Except PyErr Val) (cspec : ColsSpec) :
    SchemaInv H { s with muts := s.muts ++ [.mutateE f cspec] } := by
  obtain ⟨h1, h2, h3⟩ := hInv
  refine ⟨h1, ?_, h3⟩
  intro hsel
  show (TCSV.names s).length = H + addCount (s.muts ++ [.mutateE f cspec])
  rw [addCount_append]
  have := h2 hsel
  simp only [addDelta]
  omega

theorem select_schemaInv {H : Nat} (s : TCSV) (cs : List String) :
    SchemaInv H { s with store := s.store ++ [cs], namesRef := s.store.length,
                         sel := some s.store.length } := by
  refine ⟨?_, ?_, ?_⟩
  · show s.store.length < (s.store ++ [cs]).length
    simp
  · intro hsel
    cases hsel
  · intro r hsel
    have hr : s.store.length = r := by
      have : some s.store.length = some r := hsel
      cases this
      rfl
    cases hr
    constructor
    · show s.store.length < (s.store ++ [cs]).length
      simp
    · show ((s.store ++ [cs]).getD s.store.length []).length =
        (TCSV.names { s with store := s.store ++ [cs], namesRef := s.store.length,
                             sel := some s.store.length }).length
      rfl

theorem good_preserve (H : Nat) :
    ∀ (ops : List Op) (selF stale : Bool) (s t : TCSV),
      goodAux selF stale ops = true → SchemaInv H s → FlagsOk selF stale s →
      applyOps s ops = .ok t → SchemaInv H t := by
  intro ops
  induction ops with
  | nil =>
    intro selF stale s t _ hInv _ happ
    simp only [applyOps] at happ
    cases happ
    exact hInv
  | cons op rest ih =>
    intro selF stale s t hgood hInv hflag happ
    simp only [applyOps] at happ
    cases op with
    | renameO m =>
      simp only [applyOp] at happ
      simp only [goodAux] at hgood
      exact ih selF selF _ t hgood (rename_schemaInv hInv m) (rename_flags hflag m) happ
    | addO n v =>
      simp only [applyOp] at happ
      simp only [goodAux, Bool.and_eq_true, Bool.not_eq_true'] at hgood
      obtain ⟨hstale, hrest⟩ := hgood
      have hsel : s.sel = none ∨ s.sel = some s.namesRef := by
        cases hsf : selF with
        | false => exact Or.inl (hflag.1 hsf)
        | true => exact Or.inr (hflag.2.2 hsf hstale)
      exact ih selF stale _ t hrest
        (pushNew_schemaInv hInv hsel n (.addConst v) rfl)
        (pushNew_flags hflag n (.addConst v)) happ
    | addColO n f cs =>
      simp only [applyOp] at happ
      simp only [goodAux, Bool.and_eq_true, Bool.not_eq_true'] at hgood
      obtain ⟨hstale, hrest⟩ := hgood
      cases hadd : TCSV.add_column s n f cs with
      | error e => rw [hadd] at happ; cases happ
      | ok u =>
        rw [hadd] at happ
        have hu := add_column_ok hadd
        subst hu
        have hsel : s.sel = none ∨ s.sel = some s.namesRef := by
          cases hsf : selF with
          | false => exact Or.inl (hflag.1 hsf)
          | true => exact Or.inr (hflag.2.2 hsf hstale)
        exact ih selF stale _ t hrest
          (pushNew_schemaInv hInv hsel n (.addCol f cs) rfl)
          (pushNew_flags hflag n (.addCol f cs)) happ
    | mutateO f col =>
      simp only [applyOp] at happ
      simp only [goodAux] at hgood
      cases hmut : TCSV.mutate s f col with
      | error e => rw [hmut] at happ; cases happ
      | ok u =>
        rw [hmut] at happ
        have hu := mutate_ok hmut
        subst hu
        exact ih selF stale _ t hgood (mutOnly_schemaInv hInv f _) hflag happ
    | constraintO f fname col =>
      simp only [applyOp] at happ
      simp only [goodAux] at hgood
      cases hcon : TCSV.constraint s f fname col with
      | error e => rw [hcon] at happ; cases happ
      | ok u =>
        rw [hcon] at happ
        have hu := constraint_ok hcon
        subst hu
        refine ih selF stale
          { s with cons := s.cons ++ [{ f := f, fname := fname, cols := colArgSpec s col }] }
          t hgood ?_ ?_ happ
        · obtain ⟨h1, h2, h3⟩ := hInv
          exact ⟨h1, h2, h3⟩
        · obtain ⟨f1, f2, f3⟩ := hflag
          exact ⟨f1, f2, f3⟩
    | selectO cs =>
      simp only [applyOp] at happ
      simp only [goodAux] at hgood
      cases hs : TCSV.select s cs with
      | error e => rw [hs] at happ; cases happ
      | ok u =>
        rw [hs] at happ
        have hu := select_ok hs
        subst hu
        refine ih true false _ t hgood (select_schemaInv s cs) ?_ happ
        refine ⟨?_, ?_, ?_⟩
        · intro h; cases h
        · intro _; exact ⟨s.store.length, rfl⟩
        · intro _ _; rfl

/-- A successful pass through the transform, constraint and select steps
emits a row whose width is the current schema's name count, provided the
raw row has the header width `H` and the schema invariant holds. -/
theorem emit_length {H : Nat} {s : TCSV} (hInv : SchemaInv H s) {row out : List Val}
    (hrow : row.length = H) (h : stepsRun s row = .ok out) :
    out.length = (TCSV.names s).length := by
  obtain ⟨h1, h2, h3⟩ := hInv
  unfold stepsRun at h
  split at h
  · cases h
  · rename_i mutated hmut
    split at h
    · cases h
    · unfold runSelect at h
      cases hsel : s.sel with
      | none =>
        rw [hsel] at h
        cases h
        have hml := runMuts_length hmut
        have hn := h2 hsel
        omega
      | some r =>
        rw [hsel] at h
        have hgl := gatherVals_length h
        obtain ⟨hr, hlen⟩ := h3 r hsel
        rw [hgl, hlen]

theorem applyOp_source {s u : TCSV} {op : Op} (h : applyOp s op = .ok u) :
    u.source = s.source ∧ u.rownumber = s.rownumber := by
  cases op with
  | renameO m =>
    simp only [applyOp] at h
    cases h
    exact ⟨rfl, rfl⟩
  | addO n v =>
    simp only [applyOp] at h
    cases h
    exact ⟨rfl, rfl⟩
  | addColO n f cs =>
    simp only [applyOp] at h
    rw [add_column_ok h]
    exact ⟨rfl, rfl⟩
  | mutateO f col =>
    simp only [applyOp] at h
    rw [mutate_ok h]
    exact ⟨rfl, rfl⟩
  | constraintO f fname col =>
    simp only [applyOp] at h
    rw [constraint_ok h]
    exact ⟨rfl, rfl⟩
  | selectO cs =>
    simp only [applyOp] at h
    rw [select_ok h]
    exact ⟨rfl, rfl⟩

theorem applyOps_source : ∀ {ops : List Op} {s t : TCSV},
    applyOps s ops = .ok t → t.source = s.source ∧ t.rownumber = s.rownumber := by
  intro ops
  induction ops with
  | nil =>
    intro s t h
    simp only [applyOps] at h
    cases h
    exact ⟨rfl, rfl⟩
  | cons op rest ih =>
    intro s t h
    simp only [applyOps] at h
    cases hop : applyOp s op with
    | error e => rw [hop] at h; cases h
    | ok u =>
      rw [hop] at h
      obtain ⟨hs1, hr1⟩ := applyOp_source hop
      obtain ⟨hs2, hr2⟩ := ih h
      exact ⟨hs2.trans hs1, hr2.trans hr1⟩

theorem schemaInv_transport {H : Nat} {s u : TCSV}
    (hst : u.store = s.store) (hnr : u.namesRef = s.namesRef)
    (hsel : u.sel = s.sel) (hm : u.muts = s.muts)
    (hInv : SchemaInv H s) : SchemaInv H u := by
  obtain ⟨h1, h2, h3⟩ := hInv
  refine ⟨?_, ?_, ?_⟩
  · rw [hst, hnr]; exact h1
  · intro hu
    rw [hsel] at hu
    have := h2 hu
    unfold TCSV.names at this ⊢
    rw [hst, hnr, hm]
    exact this
  · intro r hu
    rw [hsel] at hu
    obtain ⟨hr, hl⟩ := h3 r hu
    refine ⟨?_, ?_⟩
    · rw [hst]; exact hr
    · unfold TCSV.names at hl ⊢
      rw [hst, hnr]
      exact hl

/-! Construction inversion. -/

theorem mkTCSV_inv {file : List (List Val)} {skip : Nat} {s0 : TCSV}
    (h : mkTCSV file skip = some s0) :
    s0.store = [TCSV.names s0] ∧ s0.namesRef = 0 ∧ s0.idx = regen (TCSV.names s0) ∧
    s0.muts = [] ∧ s0.cons = [] ∧ s0.sel = none ∧ s0.rownumber = 1 + skip ∧
    file.drop skip = TCSV.names s0 :: s0.source := by
  unfold mkTCSV at h
  split at h
  · cases h
  · rename_i hdr rest heq
    cases h
    exact ⟨rfl, rfl, rfl, rfl, rfl, rfl, rfl, heq⟩

/-! Pull characterisation on a non-empty source. -/

theorem pull_cons_ok {s : TCSV} {row : List Val} {rest : List (List Val)} {out : List Val}
    (hs : s.source = row :: rest) (h : stepsRun (advanceS s rest) row = .ok out) :
    pull s = (advanceS s rest, .ok out) := by
  unfold pull
  rw [hs]
  simp only [h]

theorem pull_cons_err {s : TCSV} {row : List Val} {rest : List (List Val)} {e : PyErr}
    (hs : s.source = row :: rest) (h : stepsRun (advanceS s rest) row = .error e) :
    pull s = (advanceS s rest, .err (s.rownumber + 1) e) := by
  unfold pull
  rw [hs]
  simp only [h]
  rfl

/-! First-failure behaviour of the constraint chain. -/

theorem runConstraint_firstFail {s : TCSV} {f : Val → Except PyErr Bool} {fname : String}
    {row : List Val} {c : String} {i : Nat} {v : Val} (cs2 : List String)
    (hc : dlookup s.idx c = some i) (hv : row.get? i = some v) (hf : f v = .ok false) :
    ∀ cs1 : List String,
      (∀ c' ∈ cs1, ∃ i' v', dlookup s.idx c' = some i' ∧ row.get? i' = some v' ∧
        f v' = .ok true) →
      runConstraint s f fname (cs1 ++ c :: cs2) row =
        .error (.constraintError c v fname s.rownumber) := by
  intro cs1
  induction cs1 with
  | nil =>
    intro _
    have e1 : dGet s.idx c = .ok i := by unfold dGet; rw [hc]
    have e2 : pyGet row i = .ok v := by unfold pyGet; rw [hv]
    simp only [List.nil_append, runConstraint, e1, e2, hf]
    simp
  | cons c' cs1 ih =>
    intro hpass
    obtain ⟨i', v', h1, h2, h3⟩ := hpass c' (by simp)
    have e1 : dGet s.idx c' = .ok i' := by unfold dGet; rw [h1]
    have e2 : pyGet row i' = .ok v' := by unfold pyGet; rw [h2]
    simp only [List.cons_append, runConstraint, e1, e2, h3, if_true]
    exact ih (fun c'' hc'' => hpass c'' (by simp [hc'']))

theorem runCons_head_fail {s : TCSV} {row : List Val} {e : ConEntry} {err : PyErr}
    (rest : List ConEntry) (h : runConEntry s e row = .error err) :
    runCons s row (e :: rest) = .error err := by
  simp only [runCons, h]

/-! The drain performed by `write`: characterisation of an aborted drain. -/

theorem drainF_err_spec :
    ∀ (fuel : Nat) (s : TCSV) (out : List (List Val)) (rn : Nat) (err : PyErr),
      s.source.length ≤ fuel →
      drainF fuel s = (out, some (rn, err)) →
      rn = s.rownumber + out.length + 1 ∧
      out.length < s.source.length ∧
      (pull (pullN s out.length)).2 = .err rn err ∧
      (∀ k, k < out.length → ∃ r, (pull (pullN s k)).2 = .ok r ∧ out.get? k = some r) := by
  intro fuel
  induction fuel with
  | zero =>
    intro s out rn err _ h
    simp only [drainF] at h
    cases h
  | succ fuel ih =>
    intro s out rn err hfuel h
    cases hs : s.source with
    | nil =>
      rw [show drainF (fuel + 1) s = ([], none) from by
        simp only [drainF, pull_empty s hs]] at h
      cases h
    | cons row rest =>
      cases hstep : stepsRun (advanceS s rest) row with
      | error e =>
        have hp := pull_cons_err hs hstep
        rw [show drainF (fuel + 1) s = ([], some (s.rownumber + 1, e)) from by
          simp only [drainF, hp]] at h
        injection h with ho hsome
        injection hsome with hpair
        injection hpair with hrn herr
        subst ho
        subst hrn
        subst herr
        refine ⟨by simp, ?_, ?_, ?_⟩
        · simp only [hs, List.length_cons]
          simp
        · show (pull s).2 = _
          rw [hp]
        · intro k hk
          exact absurd hk (by simp)
      | ok r =>
        have hp := pull_cons_ok hs hstep
        have hrec : drainF (fuel + 1) s =
            ((r :: (drainF fuel (advanceS s rest)).1), (drainF fuel (advanceS s rest)).2) := by
          simp only [drainF, hp]
        rw [hrec] at h
        have hout : out = r :: (drainF fuel (advanceS s rest)).1 := by
          have := congrArg Prod.fst h
          simpa using this.symm
        have hsnd : (drainF fuel (advanceS s rest)).2 = some (rn, err) := by
          have := congrArg Prod.snd h
          simpa using this
        have hflen : (advanceS s rest).source.length ≤ fuel := by
          show rest.length ≤ fuel
          rw [hs] at hfuel
          simpa using Nat.le_of_succ_le_succ hfuel
        have hprev : drainF fuel (advanceS s rest) =
            ((drainF fuel (advanceS s rest)).1, some (rn, err)) := by
          rw [← hsnd]
        obtain ⟨i1, i2, i3, i4⟩ := ih (advanceS s rest) _ rn err hflen hprev
        have hpull1 : (pull s).1 = advanceS s rest := by rw [hp]
        refine ⟨?_, ?_, ?_, ?_⟩
        · rw [hout]
          simp only [List.length_cons, advanceS] at i1 ⊢
          omega
        · rw [hout]
          have i2' : (drainF fuel (advanceS s rest)).1.length < rest.length := i2
          simp only [hs, List.length_cons]
          omega
        · rw [hout]
          show (pull (pullN s ((drainF fuel (advanceS s rest)).1.length + 1))).2 = _
          rw [show pullN s ((drainF fuel (advanceS s rest)).1.length + 1) =
            pullN (pull s).1 (drainF fuel (advanceS s rest)).1.length from rfl, hpull1]
          exact i3
        · intro k hk
          cases k with
          | zero =>
            refine ⟨r, ?_, ?_⟩
            · show (pull s).2 = _
              rw [hp]
            · rw [hout]
              rfl
          | succ k =>
            rw [hout] at hk
            simp only [List.length_cons] at hk
            obtain ⟨rk, hk1, hk2⟩ := i4 k (Nat.lt_of_succ_lt_succ hk)
            refine ⟨rk, ?_, ?_⟩
            · rw [show pullN s (k + 1) = pullN (pull s).1 k from rfl, hpull1]
              exact hk1
            · rw [hout]
              simpa using hk2

theorem drain_err_spec {s : TCSV} {out : List (List Val)} {rn : Nat} {err : PyErr}
    (h : drain s = (out, some (rn, err))) :
    rn = s.rownumber + out.length + 1 ∧
    out.length < s.source.length ∧
    (pull (pullN s out.length)).2 = .err rn err ∧
    (∀ k, k < out.length → ∃ r, (pull (pullN s k)).2 = .ok r ∧ out.get? k = some r) :=
  drainF_err_spec s.source.length s out rn err (Nat.le_refl _) h

/-! Lookup behaviour of `rename` with a singleton mapping. -/

theorem alookup_single (a b n : String) :
    (match alookup [(a, b)] n with
     | some nn => nn
     | none => n) = (if n = a then b else n) := by
  simp only [alookup]
  by_cases h : n = a
  · simp [h]
  · simp [h]

theorem names_rename_single (s : TCSV) (a b : String) :
    TCSV.names (TCSV.rename s [(a, b)]) =
      (TCSV.names s).map (fun n => if n = a then b else n) := by
  rw [names_rename]
  have : (fun n => match alookup [(a, b)] n with
                   | some nn => nn
                   | none => n) = (fun n : String => if n = a then b else n) :=
    funext (alookup_single a b)
  rw [this]

theorem dlookup_regen_subst (a b : String) :
    ∀ ns : List String, b ∉ ns →
      dlookup (regen (ns.map (fun x => if x = a then b else x))) b =
        dlookup (regen ns) a := by
  intro ns
  induction ns using List.reverseRecOn with
  | nil => intro _; rfl
  | append_singleton ns n ih =>
    intro hb
    have hbn : ¬ b = n := fun h => hb (by simp [h])
    have hbns : b ∉ ns := fun h => hb (by simp [h])
    rw [List.map_append]
    simp only [List.map_cons, List.map_nil]
    rw [dlookup_regen_append, dlookup_regen_append]
    by_cases hna : n = a
    · rw [if_pos hna]
      rw [if_pos rfl, if_pos (by rw [hna]), List.length_map]
    · rw [if_neg hna]
      rw [if_neg hbn]
      have han : ¬ a = n := fun h => hna h.symm
      rw [if_neg han]
      exact ih hbns

theorem dlookup_regen_subst_orig (a b : String) (hba : b ≠ a) (ns : List String) :
    dlookup (regen (ns.map (fun x => if x = a then b else x))) a = none := by
  apply dlookup_regen_eq_none
  intro hmem
  rw [List.mem_map] at hmem
  obtain ⟨x, hx, hfx⟩ := hmem
  by_cases h : x = a
  · rw [if_pos h] at hfx
    exact hba hfx
  · rw [if_neg h] at hfx
    exact h hfx

/-! Value-level behaviour of the projection (and of `add_column` gathering). -/

theorem list_get?_getD {row : List Val} :
    ∀ {i : Nat}, i < row.length → row.get? i = some (row.getD i "") := by
  induction row with
  | nil => intro i h; exact absurd h (by simp)
  | cons a l ih =>
    intro i h
    cases i with
    | zero => rfl
    | succ i => exact ih (Nat.lt_of_succ_lt_succ h)

theorem pyGet_of_lt {row : List Val} {i : Nat} (h : i < row.length) :
    pyGet row i = .ok (row.getD i "") := by
  unfold pyGet
  rw [list_get?_getD h]

theorem gatherVals_map {s : TCSV} {row : List Val} (ix : String → Nat) :
    ∀ cs : List String,
      (∀ c ∈ cs, dlookup s.idx c = some (ix c) ∧ ix c < row.length) →
      gatherVals s row cs = .ok (cs.map (fun c => row.getD (ix c) "")) := by
  intro cs
  induction cs with
  | nil => intro _; rfl
  | cons c cs ih =>
    intro h
    obtain ⟨hc, hlt⟩ := h c (by simp)
    have h1 : dGet s.idx c = .ok (ix c) := by unfold dGet; rw [hc]
    have h2 : pyGet row (ix c) = .ok (row.getD (ix c) "") := pyGet_of_lt hlt
    have h3 := ih (fun c' hc' => h c' (by simp [hc']))
    simp only [gatherVals, h1, h2, h3, List.map_cons]

/-! Claim theorems. -/

/-- Claim C2 (code bug): the spec says the Transform Chain runs over a
private shallow copy of the raw row, but in `__next__` the loop body is
`mutated = fn(row)` — every mutation closure is applied to (and mutates in
place) the raw row object itself, while the copy `mutated = row[:]` is
discarded by the first iteration.  Concretely, with `add("k", "x")`
registered, after the transform loop the raw row object fetched as `["1"]`
holds `["1", "x"]` instead of staying `["1"]` as the spec's copy discipline
requires.  (Each stage still observes the previous stage's output, because
every registered closure returns the very object it mutated; the output
values of the pull are unaffected, which is why the slip is latent.) -/
theorem c2_raw_row_mutated :
    (mkTCSV [["a"], ["1"]] 0).map
      (fun s => rawRowAfterChain (TCSV.add s "k" "x") ["1"]) =
      some (.ok ["1", "x"]) ∧
    (Except.ok ["1", "x"] : Except PyErr (List Val)) ≠ .ok ["1"] := by
  refine ⟨rfl, ?_⟩
  intro h
  simp at h

/-- Claim C5: an exhausted source propagates the end-of-sequence signal
unwrapped (and the pull result is `eos` exactly when the source is empty),
while every exception `e` raised inside the transform, constraint or select
steps — constraint failures and user-function exceptions included — is
re-raised as `TransformError` carrying the incremented row counter and `e`
itself as the original cause. -/
theorem c5_wrapping :
    ∀ s : TCSV,
      ((pull s).2 = .eos ↔ s.source = []) ∧
      (∀ (row : List Val) (rest : List (List Val)), s.source = row :: rest →
        (∀ e, stepsRun (advanceS s rest) row = .error e →
          (pull s).2 = .err (s.rownumber + 1) e) ∧
        (∀ out, stepsRun (advanceS s rest) row = .ok out →
          (pull s).2 = .ok out)) := by
  intro s
  constructor
  · constructor
    · intro h
      cases hs : s.source with
      | nil => rfl
      | cons row rest =>
        exfalso
        cases hstep : stepsRun (advanceS s rest) row with
        | ok out =>
          rw [pull_cons_ok hs hstep] at h
          exact absurd h (by simp)
        | error e =>
          rw [pull_cons_err hs hstep] at h
          exact absurd h (by simp)
    · intro h
      rw [pull_empty s h]
  · intro row rest hs
    constructor
    · intro e he
      rw [pull_cons_err hs he]
    · intro out ho
      rw [pull_cons_ok hs ho]

/-- Claim C5 witness: on the concrete constraint pipeline the first pull
wraps the `ConstraintError` into a `TransformError` with row counter 2, and
after the source is drained the pull signals `eos` unwrapped. -/
theorem c5_witness :
    (pull conPipe).2 = .err 2 (.constraintError "a" "0" "nonzero" 2) ∧
    (pull (pullN conPipe 2)).2 = .eos :=
  ⟨((c5_wrapping conPipe).2 ["0"] [["1"]] rfl).1
      (.constraintError "a" "0" "nonzero" 2) rfl,
   ((c5_wrapping (pullN conPipe 2)).1).mpr rfl⟩

/-- Claim C7 (amended): the row counter starts at 1 and is incremented once
per skipped leading row and once per pulled row (failed pulls included); the
header consumption does not increment it — the initial value 1 accounts for
the header — so after construction the counter is `1 + skiprows` and a pull
on an exhausted source leaves it unchanged. -/
theorem c7_rowcounter :
    (∀ (file : List (List Val)) (skip : Nat) (s0 : TCSV),
      mkTCSV file skip = some s0 → s0.rownumber = 1 + skip) ∧
    (∀ s : TCSV, s.source = [] → pull s = (s, .eos)) ∧
    (∀ (s : TCSV) (row : List Val) (rest : List (List Val)), s.source = row :: rest →
      (pull s).1.rownumber = s.rownumber + 1) ∧
    (∀ (s : TCSV) (n : Nat), (pullN s n).rownumber = s.rownumber + min n s.source.length) := by
  refine ⟨?_, pull_empty, ?_, pullN_rownumber⟩
  · intro file skip s0 h
    exact (mkTCSV_inv h).2.2.2.2.2.2.1
  · intro s row rest hs
    rw [pull_rownumber]
    simp [hs]

/-- Claim C7 counterexample: with no skipped rows the counter is 1 after
construction — the header row was consumed without incrementing it — where
the claim's accounting (start at 1, then once more for the header) would
make it 2. -/
theorem c7_counterexample :
    ((mkTCSV [["h"], ["1"]] 0).getD default).rownumber = 1 ∧
    ((mkTCSV [["h"], ["1"]] 0).getD default).rownumber ≠ 1 + 0 + 1 := by
  refine ⟨rfl, ?_⟩
  intro h
  simp [mkTCSV] at h

/-- Claim C7 witness: the amended counter accounting at concrete inputs. -/
theorem c7_witness :
    ((mkTCSV [["h"], ["1"]] 0).getD default).rownumber = 1 + 0 ∧
    (pull conPipe).1.rownumber = conPipe.rownumber + 1 :=
  ⟨c7_rowcounter.1 [["h"], ["1"]] 0 ((mkTCSV [["h"], ["1"]] 0).getD default) rfl,
   c7_rowcounter.2.2.1 conPipe ["0"] [["1"]] rfl⟩

/-- Claim C10: a failing pull has already advanced the source cursor past
the failing row and incremented the counter, so the pipeline stays usable: a
subsequent pull processes the next source row (returning its transformed
value when the steps succeed) or signals end-of-sequence when the failing
row was the last one — it neither re-raises the old failure nor halts. -/
theorem c10_resumable :
    ∀ (s : TCSV) (row : List Val) (rest : List (List Val)) (rn : Nat) (e : PyErr),
      s.source = row :: rest →
      (pull s).2 = .err rn e →
      (pull s).1 = advanceS s rest ∧
      (pull s).1.source = rest ∧
      (pull s).1.rownumber = s.rownumber + 1 ∧
      (rest = [] → (pull (pull s).1).2 = .eos) ∧
      (∀ (r2 : List Val) (rest2 : List (List Val)) (out : List Val),
        rest = r2 :: rest2 →
        stepsRun (advanceS (advanceS s rest) rest2) r2 = .ok out →
        (pull (pull s).1).2 = .ok out) := by
  intro s row rest rn e hs herr
  have h1 : (pull s).1 = advanceS s rest := by
    cases hstep : stepsRun (advanceS s rest) row with
    | ok out =>
      rw [pull_cons_ok hs hstep] at herr
      exact absurd herr (by simp)
    | error e2 =>
      rw [pull_cons_err hs hstep]
  refine ⟨h1, by rw [h1]; rfl, by rw [h1]; rfl, ?_, ?_⟩
  · intro hrest
    rw [h1]
    rw [pull_empty _ (show (advanceS s rest).source = [] from hrest)]
  · intro r2 rest2 out hrest hstep2
    rw [h1]
    rw [pull_cons_ok (show (advanceS s rest).source = r2 :: rest2 from hrest) hstep2]

/-- Claim C10 witness: on the concrete constraint pipeline the first pull
fails, and the pull after it returns the next source row transformed. -/
theorem c10_witness :
    (pull (pull conPipe).1).2 = .ok ["1"] :=
  (c10_resumable conPipe ["0"] [["1"]] 2 (.constraintError "a" "0" "nonzero" 2)
    rfl rfl).2.2.2.2 ["1"] [] ["1"] rfl rfl

/-- Claim C8 (amended): for a current column name `a` and a name `b` that is
NOT currently a column name, `rename({a: b})` makes resolving `b` return the
index resolving `a` returned before the rename, and resolving `a` afterwards
fails with an unknown-column lookup (the hypothesis `idx = regen names`
holds for every pipeline that has not executed `select`).  The restriction
on `b` is forced: when `b` is already a column, the rebuilt mapping resolves
`b` to the last duplicate position rather than the old index of `a`. -/
theorem c8_rename_resolve :
    ∀ (s : TCSV) (a b : String),
      s.idx = regen (TCSV.names s) →
      a ∈ TCSV.names s → b ∉ TCSV.names s →
      dlookup (TCSV.rename s [(a, b)]).idx b = dlookup s.idx a ∧
      dlookup (TCSV.rename s [(a, b)]).idx a = none := by
  intro s a b hidx ha hb
  have hba : b ≠ a := fun h => hb (h ▸ ha)
  have hidx2 : (TCSV.rename s [(a, b)]).idx =
      regen ((TCSV.names s).map (fun x => if x = a then b else x)) := by
    rw [idx_rename, names_rename_single]
  rw [hidx2, hidx]
  exact ⟨dlookup_regen_subst a b (TCSV.names s) hb,
         dlookup_regen_subst_orig a b hba (TCSV.names s)⟩

/-- Claim C8 counterexample: on the schema `[x, y]`, before renaming,
`resolve(x)` is 0; after `rename({x: y})` — `y` being an existing column —
`resolve(y)` is 1 (the duplicate resolves to its last position), not 0, so
the claim fails for an arbitrary name `b`. -/
theorem c8_counterexample :
    dlookup c8pipe.idx "x" = some 0 ∧
    dlookup (TCSV.rename c8pipe [("x", "y")]).idx "y" = some 1 ∧
    (some 1 : Option Nat) ≠ some 0 := by
  refine ⟨rfl, rfl, ?_⟩
  intro h
  simp at h

/-- Claim C8 witness: renaming `x` to the fresh name `z` on the schema
`[x, y]` preserves the resolved index and invalidates `x`. -/
theorem c8_witness :
    dlookup (TCSV.rename c8pipe [("x", "z")]).idx "z" = dlookup c8pipe.idx "x" ∧
    dlookup (TCSV.rename c8pipe [("x", "z")]).idx "x" = none :=
  c8_rename_resolve c8pipe "x" "z" rfl (by decide) (by decide)

/-- Claim C9: a successful `select(columns)` replaces the schema's name
sequence with `columns` verbatim, leaves the index mapping untouched, and
installs a projection that rebuilds each emitted row as exactly the values
at the indices resolved from `columns`, in the given order; in particular
`select([c2, c1])` on the schema `[c1, c2]` with data row `[1, 2]` emits
`[2, 1]` and the schema becomes `[c2, c1]`. -/
theorem c9_select :
    (∀ (s : TCSV) (cs : List String) (t : TCSV),
      TCSV.select s cs = .ok t →
      TCSV.names t = cs ∧ t.idx = s.idx ∧
      (∀ (row : List Val) (ix : String → Nat),
        (∀ c ∈ cs, dlookup t.idx c = some (ix c) ∧ ix c < row.length) →
        runSelect t row = .ok (cs.map (fun c => row.getD (ix c) "")))) ∧
    ((match mkTCSV [["c1", "c2"], ["1", "2"]] 0 with
      | some s => exOk (TCSV.select s ["c2", "c1"])
      | none => none).map (fun t => ((pull t).2, TCSV.names t)) =
      some (.ok ["2", "1"], ["c2", "c1"])) := by
  constructor
  · intro s cs t h
    have ht := select_ok h
    subst ht
    refine ⟨list_getD_append_len .., rfl, ?_⟩
    intro row ix hix
    unfold runSelect
    simp only
    rw [list_getD_append_len]
    exact gatherVals_map ix cs hix
  · rfl

/-- Claim C9 witness: the general projection statement instantiated at the
concrete `select([c2, c1])` pipeline. -/
theorem c9_witness :
    TCSV.names c9sel = ["c2", "c1"] ∧
    runSelect c9sel ["1", "2"] =
      .ok (["c2", "c1"].map (fun c =>
        (["1", "2"] : List Val).getD (if c = "c2" then 1 else 0) "")) :=
  ⟨(c9_select.1 c9init ["c2", "c1"] c9sel rfl).1,
   (c9_select.1 c9init ["c2", "c1"] c9sel rfl).2.2 ["1", "2"]
     (fun c => if c = "c2" then 1 else 0) (by decide)⟩

/-- Claim C3 (amended): the index mapping is exactly the one regenerated
from the name sequence after construction and after every `rename` (always)
and after every `add`/`add_column` performed while the invariant held —
even with duplicate names, where the regenerated dict resolves a duplicate
to its last position; its entry count is at most `len(names)`, with
equality exactly guaranteed when the names are distinct.  `select`, in
contrast, intentionally leaves the mapping untouched (the projection
closure resolves the selected names through the pre-select indices), so
after a `select` the mapping is in general NOT regenerable from the new
name sequence. -/
theorem c3_registry_invariant :
    (∀ (file : List (List Val)) (skip : Nat) (s0 : TCSV),
      mkTCSV file skip = some s0 → s0.idx = regen (TCSV.names s0)) ∧
    (∀ (s : TCSV) (m : List (String × String)),
      (TCSV.rename s m).idx = regen (TCSV.names (TCSV.rename s m))) ∧
    (∀ (s : TCSV) (n : String) (v : Val),
      s.namesRef < s.store.length → s.idx = regen (TCSV.names s) →
      (TCSV.add s n v).idx = regen (TCSV.names (TCSV.add s n v))) ∧
    (∀ (s : TCSV) (n : String) (f : List Val → Except PyErr Val)
        (cs : List String) (t : TCSV),
      s.namesRef < s.store.length → s.idx = regen (TCSV.names s) →
      TCSV.add_column s n f cs = .ok t → t.idx = regen (TCSV.names t)) ∧
    (∀ (s : TCSV) (cs : List String) (t : TCSV),
      TCSV.select s cs = .ok t → t.idx = s.idx) ∧
    (∀ ns : List String, ns.Nodup → (regen ns).length = ns.length) ∧
    (∀ ns : List String, (regen ns).length ≤ ns.length) := by
  have hpush : ∀ (s : TCSV) (n : String) (e : MutEntry),
      s.namesRef < s.store.length → s.idx = regen (TCSV.names s) →
      (pushNew s n e).idx = regen (TCSV.names (pushNew s n e)) := by
    intro s n e h1 h2
    rw [idx_pushNew, h2, names_pushNew s n e h1, regen_append]
  refine ⟨?_, ?_, ?_, ?_, ?_, regen_length_nodup, regen_length_le⟩
  · intro file skip s0 h
    exact (mkTCSV_inv h).2.2.1
  · intro s m
    exact idx_rename s m
  · intro s n v h1 h2
    exact hpush s n (.addConst v) h1 h2
  · intro s n f cs t h1 h2 h3
    have ht := add_column_ok h3
    subst ht
    exact hpush s n (.addCol f cs) h1 h2
  · intro s cs t h
    have ht := select_ok h
    subst ht
    rfl

/-- Claim C3 counterexample: after `select([c2, c1])` on the schema
`[c1, c2]` the mapping still holds the pre-select indices and differs from
the dict regenerated from the new name sequence, refuting the invariant for
the `select` operation. -/
theorem c3_counterexample :
    c9sel.idx = [("c1", 0), ("c2", 1)] ∧
    regen (TCSV.names c9sel) = [("c2", 0), ("c1", 1)] ∧
    c9sel.idx ≠ regen (TCSV.names c9sel) := by
  exact ⟨rfl, rfl, by decide⟩

/-- Claim C3 witness: the amended invariant instantiated at concrete
pipelines (construction over `[x, y]`, then an `add`). -/
theorem c3_witness :
    c8pipe.idx = regen (TCSV.names c8pipe) ∧
    (TCSV.add c8pipe "z" "0").idx = regen (TCSV.names (TCSV.add c8pipe "z" "0")) :=
  ⟨c3_registry_invariant.1 [["x", "y"], ["1", "2"]] 0 c8pipe rfl,
   c3_registry_invariant.2.2.1 c8pipe "z" "0" (by decide) rfl⟩

/-- Claim C4 (amended): the first falsy verdict of a registered constraint
raises `ConstraintError` carrying the target column name, the offending
value, the predicate's display name and the row counter at that moment —
which, for a pipeline built by `mkTCSV`, equals the 1-based count of rows
consumed so far, header included; the failure is fail-fast: the remaining
target columns of the entry (any tail `cs2`, about which nothing is
assumed) and the remaining constraint entries are never evaluated.  Within
one uninterrupted drain (the `write` loop) no rows at or after the failing
row are emitted: the drain's output consists of exactly the pulls that
preceded the failing pull.  (As the counterexample shows, the iterator
itself stays usable, so "no rows after the failing one are EVER returned"
does not hold for explicitly resumed pulls.) -/
theorem c4_constraint_failure :
    (∀ (s : TCSV) (f : Val → Except PyErr Bool) (fname : String) (row : List Val)
        (c : String) (i : Nat) (v : Val) (cs1 cs2 : List String),
      dlookup s.idx c = some i → row.get? i = some v → f v = .ok false →
      (∀ c' ∈ cs1, ∃ i' v', dlookup s.idx c' = some i' ∧ row.get? i' = some v' ∧
        f v' = .ok true) →
      runConstraint s f fname (cs1 ++ c :: cs2) row =
        .error (.constraintError c v fname s.rownumber)) ∧
    (∀ (s : TCSV) (row : List Val) (e : ConEntry) (rest : List ConEntry) (err : PyErr),
      runConEntry s e row = .error err → runCons s row (e :: rest) = .error err) ∧
    (∀ (s : TCSV) (out : List (List Val)) (rn : Nat) (err : PyErr),
      drain s = (out, some (rn, err)) →
      rn = s.rownumber + out.length + 1 ∧ out.length < s.source.length ∧
      (pull (pullN s out.length)).2 = .err rn err ∧
      (∀ k, k < out.length → ∃ r, (pull (pullN s k)).2 = .ok r ∧ out.get? k = some r)) ∧
    (∀ (file : List (List Val)) (skip : Nat) (s0 : TCSV) (n : Nat),
      mkTCSV file skip = some s0 →
      (pullN s0 n).rownumber = 1 + skip + min n s0.source.length) := by
  refine ⟨?_, ?_, ?_, ?_⟩
  · intro s f fname row c i v cs1 cs2 hc hv hf hpass
    exact runConstraint_firstFail cs2 hc hv hf cs1 hpass
  · intro s row e rest err h
    exact runCons_head_fail rest h
  · intro s out rn err h
    exact drain_err_spec h
  · intro file skip s0 n h
    rw [pullN_rownumber, (mkTCSV_inv h).2.2.2.2.2.2.1]

/-- Claim C4 counterexample: on the concrete constraint pipeline the first
pull fails (wrapped `ConstraintError`, row number 2), yet the next pull
returns `["1"]` — the row after the failing one — refuting "no rows after
the failing one are ever returned". -/
theorem c4_counterexample :
    conPipe.source = [["0"], ["1"]] ∧
    (pull conPipe).2 = .err 2 (.constraintError "a" "0" "nonzero" 2) ∧
    (pull (pull conPipe).1).2 = .ok ["1"] := by
  exact ⟨rfl, rfl, rfl⟩

/-- Claim C4 witness: the amended statement instantiated on the concrete
constraint pipeline: the failing check produces the full error payload, the
drain emits nothing and reports row number 2 (the count of consumed rows,
header included), and the counter accounting matches. -/
theorem c4_witness :
    runConstraint (advanceS conPipe [["1"]]) nonzero "nonzero" ([] ++ "a" :: []) ["0"] =
      .error (.constraintError "a" "0" "nonzero" 2) ∧
    (2 = conPipe.rownumber + ([] : List (List Val)).length + 1 ∧
      ([] : List (List Val)).length < conPipe.source.length ∧
      (pull (pullN conPipe ([] : List (List Val)).length)).2 =
        .err 2 (.constraintError "a" "0" "nonzero" 2) ∧
      (∀ k, k < ([] : List (List Val)).length →
        ∃ r, (pull (pullN conPipe k)).2 = .ok r ∧
          ([] : List (List Val)).get? k = some r)) ∧
    (pullN ((mkTCSV [["a"], ["0"], ["1"]] 0).getD default) 1).rownumber =
      1 + 0 + min 1 ((mkTCSV [["a"], ["0"], ["1"]] 0).getD default).source.length :=
  ⟨c4_constraint_failure.1 (advanceS conPipe [["1"]]) nonzero "nonzero" ["0"]
      "a" 0 "0" [] [] rfl rfl rfl (by simp),
   c4_constraint_failure.2.2.1 conPipe [] 2 (.constraintError "a" "0" "nonzero" 2) rfl,
   c4_constraint_failure.2.2.2 [["a"], ["0"], ["1"]] 0
      ((mkTCSV [["a"], ["0"], ["1"]] 0).getD default) 1 rfl⟩

/-- Claim C1 (amended): `mutate(fn, col=None)` captures the live
`self.names` list object, not a snapshot.  The registered mutation behaves
exactly like `mutate(fn, col=<content of that object at row time>)`; the
object's content is the registration-time snapshot as long as no
`add`/`add_column` appends to it while it is still the current `self.names`
object — `rename` and `select` allocate fresh objects and leave every
existing heap object unchanged, and an `add` touches only the current
`self.names` object.  But an `add`/`add_column` performed while the
captured object is still current DOES retroactively extend the mutation's
target list with the new column. -/
theorem c1_mutate_none_alias :
    (∀ (t : TCSV) (f : Val → Except PyErr Val) (r : Nat) (row : List Val),
      runMutEntry t (.mutateE f (.ref r)) row =
        runMutEntry t (.mutateE f (.lit (t.store.getD r []))) row) ∧
    (∀ (s : TCSV) (m : List (String × String)) (r : Nat), r < s.store.length →
      (TCSV.rename s m).store.getD r [] = s.store.getD r []) ∧
    (∀ (s : TCSV) (cs : List String) (t : TCSV) (r : Nat),
      TCSV.select s cs = .ok t → r < s.store.length →
      t.store.getD r [] = s.store.getD r []) ∧
    (∀ (s : TCSV) (n : String) (v : Val) (r : Nat), r ≠ s.namesRef →
      (TCSV.add s n v).store.getD r [] = s.store.getD r []) ∧
    (∀ (s : TCSV) (n : String) (v : Val), s.namesRef < s.store.length →
      (TCSV.add s n v).store.getD s.namesRef [] = TCSV.names s ++ [n]) ∧
    (∀ (s : TCSV) (f : Val → Except PyErr Val) (t : TCSV) (n : String) (v : Val),
      TCSV.mutate s f .noneArg = .ok t → s.namesRef < s.store.length →
      t.muts = s.muts ++ [.mutateE f (.ref s.namesRef)] ∧
      resolveCols (TCSV.add t n v) (.ref s.namesRef) = TCSV.names s ++ [n]) := by
  refine ⟨?_, ?_, ?_, ?_, ?_, ?_⟩
  · intro t f r row
    rfl
  · intro s m r hr
    exact list_getD_append_lt s.store _ [] r hr
  · intro s cs t r h hr
    have ht := select_ok h
    subst ht
    exact list_getD_append_lt s.store cs [] r hr
  · intro s n v r hr
    exact list_getD_set_ne s.store _ [] s.namesRef r (fun h => hr h.symm)
  · intro s n v h
    exact list_getD_set_self s.store _ [] s.namesRef h
  · intro s f t n v hmut h
    have ht := mutate_ok hmut
    subst ht
    refine ⟨rfl, ?_⟩
    show (s.store.set s.namesRef (TCSV.names s ++ [n])).getD s.namesRef [] = _
    exact list_getD_set_self s.store _ [] s.namesRef h

/-- Claim C1 counterexample: header `[a]`, data row `[1]`; registering
`mutate(fn, None)` and then `add("k", "x")` makes the pull raise a wrapped
`IndexError` (the mutation now also targets the retroactively included
column `k`, whose index is past the end of the not-yet-extended row), while
the claimed-equivalent snapshot registration `mutate(fn, ["a"])` followed by
the same `add` emits `["1!", "x"]`. -/
theorem c1_counterexample :
    (pull mutNonePipe).2 = .err 2 .indexError ∧
    (pull mutSnapPipe).2 = .ok ["1!", "x"] ∧
    (PullResult.err 2 .indexError) ≠ .ok ["1!", "x"] := by
  exact ⟨rfl, rfl, by decide⟩

/-- Claim C1 witness: the amended statement at concrete inputs — the `ref`
target behaves as its current content, and an `add` after a `mutate(None)`
extends the captured target list. -/
theorem c1_witness :
    runMutEntry mutNonePipe (.mutateE (fun v => .ok (v ++ "!")) (.ref 0)) ["1"] =
      runMutEntry mutNonePipe
        (.mutateE (fun v => .ok (v ++ "!")) (.lit (mutNonePipe.store.getD 0 []))) ["1"] ∧
    (TCSV.add c8pipe "z" "0").store.getD c8pipe.namesRef [] = TCSV.names c8pipe ++ ["z"] :=
  ⟨c1_mutate_none_alias.1 mutNonePipe (fun v => .ok (v ++ "!")) 0 ["1"],
   c1_mutate_none_alias.2.2.2.2.1 c8pipe "z" "0" (by decide)⟩

/-- Claim C6 (amended): for valid input (every file row as wide as the
header) and any registration sequence obeying the schema discipline
`goodSeq` — after a `select`, `add`/`add_column` may only be registered
before a subsequent `rename` — every row emitted by a pull has exactly as
many fields as the schema has names.  The discipline is forced: a `rename`
after a `select` rebinds `self.names` to a fresh object, so a later
`add` extends the schema but not the projection closure's aliased column
list, and the emitted width falls behind the schema length (see the
counterexample). -/
theorem c6_emitted_width :
    ∀ (file : List (List Val)) (skip : Nat) (ops : List Op) (s0 s : TCSV)
      (n : Nat) (out : List Val),
      mkTCSV file skip = some s0 →
      (∀ r ∈ file, r.length = (TCSV.names s0).length) →
      goodSeq ops = true →
      applyOps s0 ops = .ok s →
      (pull (pullN s n)).2 = .ok out →
      out.length = (TCSV.names s).length := by
  intro file skip ops s0 s n out hmk hvalid hgood happ hpull
  obtain ⟨i1, i2, i3, i4, i5, i6, i7, i8⟩ := mkTCSV_inv hmk
  have hInv0 : SchemaInv (TCSV.names s0).length s0 := by
    refine ⟨?_, ?_, ?_⟩
    · rw [i1, i2]
      simp
    · intro _
      rw [i4]
      simp [addCount]
    · intro r hr
      rw [i6] at hr
      cases hr
  have hflag0 : FlagsOk false false s0 := by
    refine ⟨fun _ => i6, ?_, ?_⟩
    · intro h
      cases h
    · intro h _
      cases h
  have hInv : SchemaInv (TCSV.names s0).length s :=
    good_preserve (TCSV.names s0).length ops false false s0 s hgood hInv0 hflag0 happ
  obtain ⟨hsrc, _⟩ := applyOps_source happ
  obtain ⟨p1, p2, p3, p4, p5, p6⟩ := pullN_schema s n
  cases hus : (pullN s n).source with
  | nil =>
    rw [pull_empty (pullN s n) hus] at hpull
    exact absurd hpull (by simp)
  | cons row rest =>
    cases hstep : stepsRun (advanceS (pullN s n) rest) row with
    | error e =>
      rw [pull_cons_err hus hstep] at hpull
      exact absurd hpull (by simp)
    | ok out2 =>
      rw [pull_cons_ok hus hstep] at hpull
      have hout : out2 = out := by simpa using hpull
      subst hout
      have hrowmem : row ∈ file := by
        have h1 : row ∈ (pullN s n).source := by rw [hus]; simp
        rw [pullN_source] at h1
        have h2 : row ∈ s.source := List.drop_subset n s.source h1
        rw [hsrc] at h2
        have h3 : row ∈ TCSV.names s0 :: s0.source := List.mem_cons_of_mem _ h2
        rw [← i8] at h3
        exact List.drop_subset skip file h3
      have hroww : row.length = (TCSV.names s0).length := hvalid row hrowmem
      have hInvN : SchemaInv (TCSV.names s0).length (pullN s n) :=
        schemaInv_transport p1 p2 p6 p4 hInv
      have hInvU : SchemaInv (TCSV.names s0).length (advanceS (pullN s n) rest) :=
        schemaInv_transport rfl rfl rfl rfl hInvN
      have hlen := emit_length hInvU hroww hstep
      have hnames : TCSV.names (advanceS (pullN s n) rest) = TCSV.names s := by
        unfold TCSV.names advanceS
        simp only
        rw [p1, p2]
      rw [hnames] at hlen
      exact hlen

/-- Claim C6 counterexample: `select([a])`, then `rename({})`, then
`add("k", "x")` on a one-column file: the pull succeeds and emits the
one-field row `["1"]`, while the schema holds the two names `[a, k]`. -/
theorem c6_counterexample :
    (pull widthPipe).2 = .ok ["1"] ∧
    TCSV.names widthPipe = ["a", "k"] ∧
    ([("1" : Val)]).length ≠ (["a", "k"] : List String).length := by
  exact ⟨rfl, rfl, by decide⟩

/-- Claim C6 witness: the amended width statement instantiated on the
concrete `select([c2, c1])` pipeline. -/
theorem c6_witness :
    (pull (pullN c6wPipe 0)).2 = .ok ["2", "1"] ∧
    ([("2" : Val), "1"]).length = (TCSV.names c6wPipe).length :=
  ⟨rfl,
   c6_emitted_width [["c1", "c2"], ["1", "2"]] 0 [Op.selectO ["c2", "c1"]]
     ((mkTCSV [["c1", "c2"], ["1", "2"]] 0).getD default) c6wPipe 0 ["2", "1"]
     rfl (by decide) rfl rfl rfl⟩
